import Mathlib

/-!
Verification of the rs-voir weighted reservoir sampling library and its
ReSTIR example pipeline.

The Rust sources are shallowly embedded: `f32` values are modelled as real
numbers, `u32` counters as naturals, a `panic!`/`assert!` as an `Option`
result (`none` = fatal assertion), and every call that consumes one uniform
random draw in `[0,1)` takes that draw as an explicit real argument.  The
probability of an event over one draw is the Lebesgue measure of the set of
draws in `[0,1)` producing it; the probability over a sequence of `n`
independent draws is the product measure on `Fin n → ℝ` with the uniform
measure on `[0,1)` in every coordinate.
-/

open MeasureTheory Classical

noncomputable section

namespace RsVoir

/-- Builder for a reservoir (struct `ReservoirBuilder` in `lib.rs`). -/
structure ReservoirBuilder where
  history : ℕ
  weight_sum : ℝ
  selected_target_pdf : ℝ

/-- A ready to use reservoir (struct `Reservoir` in `lib.rs`). -/
structure Reservoir where
  history : ℕ
  contribution_weight : ℝ

/-- The `Default` instance of `ReservoirBuilder` (all fields zero). -/
def ReservoirBuilder.default : ReservoirBuilder := ⟨0, 0, 0⟩

/-- Check if the reservoir has any weight (`Reservoir::has_weight`). -/
def Reservoir.has_weight (r : Reservoir) : Prop :=
  r.contribution_weight ≠ 0

/-- Return a copy of the reservoir with clamped history
(`Reservoir::with_max_history`). -/
def Reservoir.with_max_history (r : Reservoir) (max_history : ℕ) : Reservoir :=
  ⟨min r.history max_history, r.contribution_weight⟩

/-- Convert the reservoir back into a builder state (`Reservoir::to_builder`). -/
def Reservoir.to_builder (r : Reservoir) (selected_target_pdf : ℝ) : ReservoirBuilder :=
  ⟨r.history, r.contribution_weight * (r.history : ℝ) * selected_target_pdf,
    selected_target_pdf⟩

/-- Finish building a reservoir using the given history for weighting, while
the stored history is unaffected (`ReservoirBuilder::finish_with_history`). -/
def ReservoirBuilder.finish_with_history (b : ReservoirBuilder)
    (unbiased_history : ℕ) : Reservoir :=
  let denom : ℝ := (unbiased_history : ℝ) * b.selected_target_pdf
  ⟨b.history, if 0 < denom then b.weight_sum / denom else 0⟩

/-- Finish building a reservoir (`ReservoirBuilder::finish`). -/
def ReservoirBuilder.finish (b : ReservoirBuilder) : Reservoir :=
  b.finish_with_history b.history

/-- Invalidate the target PDF of the selected sample
(`ReservoirBuilder::invalidate`). -/
def ReservoirBuilder.invalidate (b : ReservoirBuilder) : ReservoirBuilder :=
  ⟨b.history, 0, 0⟩

/-- Reweight the reservoir as if it had less samples
(`ReservoirBuilder::clamp_history`).  The Rust code starts with
`assert_ne!(history, 0)`; a failed assertion is modelled as `none`. -/
def ReservoirBuilder.clamp_history (b : ReservoirBuilder) (history : ℕ) :
    Option ReservoirBuilder :=
  if history = 0 then none
  else if history < b.history then
    some ⟨history, b.weight_sum / (b.history : ℝ) * (history : ℝ),
      b.selected_target_pdf⟩
  else some b

/-- Stream in a new sample into a reservoir (`ReservoirBuilder::stream`),
with the uniform draw `random ∈ [0,1)` passed explicitly.  Returns the
`bool` of the Rust function together with the updated builder. -/
def ReservoirBuilder.stream (b : ReservoirBuilder)
    (source_pdf target_value random : ℝ) : Bool × ReservoirBuilder :=
  let weight := target_value / source_pdf
  let ws := b.weight_sum + weight
  if random * ws < weight then
    (true, ⟨b.history + 1, ws, target_value⟩)
  else
    (false, ⟨b.history + 1, ws, b.selected_target_pdf⟩)

/-- Register a sample with zero value (`ReservoirBuilder::add_empty_sample`). -/
def ReservoirBuilder.add_empty_sample (b : ReservoirBuilder) : ReservoirBuilder :=
  ⟨b.history + 1, b.weight_sum, b.selected_target_pdf⟩

/-- Merge another reservoir into this one (`ReservoirBuilder::merge`), with
the uniform draw passed explicitly. -/
def ReservoirBuilder.merge (b other : ReservoirBuilder) (random : ℝ) :
    Bool × ReservoirBuilder :=
  let ws := b.weight_sum + other.weight_sum
  let h := b.history + other.history
  if random * ws < other.weight_sum then
    (true, ⟨h, ws, other.selected_target_pdf⟩)
  else
    (false, ⟨h, ws, b.selected_target_pdf⟩)

/-- Merge history from another reservoir that has no weight
(`ReservoirBuilder::merge_history`). -/
def ReservoirBuilder.merge_history (b : ReservoirBuilder) (other : Reservoir) :
    ReservoirBuilder :=
  ⟨b.history + other.history, b.weight_sum, b.selected_target_pdf⟩

/-- Modelled from the spec: the library source in this snapshot declares no
`unmerge` operation.  The spec says `unmerge(other)` subtracts what was
previously merged, i.e. subtracts the other builder's `weight_sum` and
`history` from this one's, leaving the current selection untouched. -/
def ReservoirBuilder.unmerge (b other : ReservoirBuilder) : ReservoirBuilder :=
  ⟨b.history - other.history, b.weight_sum - other.weight_sum,
    b.selected_target_pdf⟩

/-- Modelled from the spec: the library source in this snapshot declares no
`collapse` operation.  The spec says `collapse()` averages `weight_sum` by
the current `history` and resets `history` to 1, and requires `history > 0`;
a violated precondition is a fatal assertion, modelled as `none`. -/
def ReservoirBuilder.collapse (b : ReservoirBuilder) : Option ReservoirBuilder :=
  if b.history = 0 then none
  else some ⟨1, b.weight_sum / (b.history : ℝ), b.selected_target_pdf⟩

/-! Basic unfolding lemmas about one `stream` and one `merge` step. -/

theorem stream_snd_history (b : ReservoirBuilder) (sp tv r : ℝ) :
    (b.stream sp tv r).2.history = b.history + 1 := by
  dsimp only [ReservoirBuilder.stream]
  split <;> rfl

theorem stream_snd_weight_sum (b : ReservoirBuilder) (sp tv r : ℝ) :
    (b.stream sp tv r).2.weight_sum = b.weight_sum + tv / sp := by
  dsimp only [ReservoirBuilder.stream]
  split <;> rfl

theorem stream_fst_iff (b : ReservoirBuilder) (sp tv r : ℝ) :
    (b.stream sp tv r).1 = true ↔ r * (b.weight_sum + tv / sp) < tv / sp := by
  dsimp only [ReservoirBuilder.stream]
  split <;> simp_all

theorem stream_snd_pdf_true (b : ReservoirBuilder) (sp tv r : ℝ)
    (h : (b.stream sp tv r).1 = true) :
    (b.stream sp tv r).2.selected_target_pdf = tv := by
  dsimp only [ReservoirBuilder.stream] at h ⊢
  split at h <;> simp_all

theorem stream_snd_pdf_false (b : ReservoirBuilder) (sp tv r : ℝ)
    (h : (b.stream sp tv r).1 = false) :
    (b.stream sp tv r).2.selected_target_pdf = b.selected_target_pdf := by
  dsimp only [ReservoirBuilder.stream] at h ⊢
  split at h
  · exact absurd h (by simp)
  next hc => rw [if_neg hc]

theorem merge_snd_weight_sum (a b : ReservoirBuilder) (r : ℝ) :
    (a.merge b r).2.weight_sum = a.weight_sum + b.weight_sum := by
  dsimp only [ReservoirBuilder.merge]
  split <;> rfl

theorem merge_snd_history (a b : ReservoirBuilder) (r : ℝ) :
    (a.merge b r).2.history = a.history + b.history := by
  dsimp only [ReservoirBuilder.merge]
  split <;> rfl

theorem merge_fst_iff (a b : ReservoirBuilder) (r : ℝ) :
    (a.merge b r).1 = true ↔ r * (a.weight_sum + b.weight_sum) < b.weight_sum := by
  dsimp only [ReservoirBuilder.merge]
  split <;> simp_all

theorem merge_snd_pdf_true (a b : ReservoirBuilder) (r : ℝ)
    (h : (a.merge b r).1 = true) :
    (a.merge b r).2.selected_target_pdf = b.selected_target_pdf := by
  dsimp only [ReservoirBuilder.merge] at h ⊢
  split at h <;> simp_all

theorem merge_snd_pdf_false (a b : ReservoirBuilder) (r : ℝ)
    (h : (a.merge b r).1 = false) :
    (a.merge b r).2.selected_target_pdf = a.selected_target_pdf := by
  dsimp only [ReservoirBuilder.merge] at h ⊢
  split at h
  · exact absurd h (by simp)
  next hc => rw [if_neg hc]

/-! The uniform distribution of one random draw in `[0,1)`, and the measures
of the acceptance sets appearing in `stream` and `merge`. -/

/-- The distribution of one uniform random draw in `[0,1)`. -/
def uniform01 : Measure ℝ := volume.restrict (Set.Ico 0 1)

instance : IsProbabilityMeasure uniform01 := by
  constructor
  rw [uniform01, Measure.restrict_apply_univ, Real.volume_Ico]
  norm_num

instance : SigmaFinite uniform01 := by
  unfold uniform01
  infer_instance

theorem measurableSet_mul_lt (S w : ℝ) : MeasurableSet {r : ℝ | r * S < w} :=
  measurableSet_lt (measurable_id.mul_const S) measurable_const

/-- Measure of the set of draws accepting a sample of weight `w` against an
updated weight sum `S`: exactly `w / S`. -/
theorem uniform01_mul_lt (S w : ℝ) (hw : 0 ≤ w) (hwS : w ≤ S) :
    uniform01 {r : ℝ | r * S < w} = ENNReal.ofReal (w / S) := by
  rcases eq_or_lt_of_le (hw.trans hwS) with hS | hS
  · have hw0 : w = 0 := le_antisymm (hwS.trans hS.ge) hw
    have : {r : ℝ | r * S < w} = ∅ := by
      ext r
      simp [← hS, hw0]
    rw [this, ← hS, hw0]
    simp
  · have hset : {r : ℝ | r * S < w} = Set.Iio (w / S) := by
      ext r
      simp [Set.mem_Iio, lt_div_iff₀ hS]
    have hle : w / S ≤ 1 := by
      rw [div_le_one hS]
      exact hwS
    have hpos : 0 ≤ w / S := div_nonneg hw hS.le
    rw [hset, uniform01, Measure.restrict_apply measurableSet_Iio]
    have : Set.Iio (w / S) ∩ Set.Ico 0 1 = Set.Ico 0 (w / S) := by
      ext r
      constructor
      · rintro ⟨h1, h2, _⟩
        exact ⟨h2, h1⟩
      · rintro ⟨h1, h2⟩
        exact ⟨h2, h1, lt_of_lt_of_le h2 hle⟩
    rw [this, Real.volume_Ico, sub_zero]

/-- Measure of the set of draws rejecting a sample of weight `w` against an
updated weight sum `S`: exactly `1 - w / S`. -/
theorem uniform01_not_mul_lt (S w : ℝ) (hw : 0 ≤ w) (hwS : w ≤ S) :
    uniform01 {r : ℝ | ¬ r * S < w} = ENNReal.ofReal (1 - w / S) := by
  rcases eq_or_lt_of_le (hw.trans hwS) with hS | hS
  · have hw0 : w = 0 := le_antisymm (hwS.trans hS.ge) hw
    have : {r : ℝ | ¬ r * S < w} = Set.univ := by
      ext r
      simp [← hS, hw0]
    rw [this, ← hS, hw0]
    simp [measure_univ]
  · have hset : {r : ℝ | ¬ r * S < w} = Set.Ici (w / S) := by
      ext r
      simp [Set.mem_Ici, not_lt, div_le_iff₀ hS, mul_comm]
    have hle : w / S ≤ 1 := by
      rw [div_le_one hS]
      exact hwS
    have hpos : 0 ≤ w / S := div_nonneg hw hS.le
    rw [hset, uniform01, Measure.restrict_apply measurableSet_Ici]
    have : Set.Ici (w / S) ∩ Set.Ico 0 1 = Set.Ico (w / S) 1 := by
      ext r
      constructor
      · rintro ⟨h1, _, h3⟩
        exact ⟨h1, h3⟩
      · rintro ⟨h1, h2⟩
        exact ⟨h1, hpos.trans h1, h2⟩
    rw [this, Real.volume_Ico]

/-! Streaming a finite sequence of samples into an initially empty builder.
`samples k = (source_pdf, target_value)` of the `k`-th streamed sample and
`u k` is the uniform draw consumed by the `k`-th `stream` call.  The run
returns the builder together with the index of the currently selected
sample (`none` while no call has returned `true`), exactly as a caller of
`ReservoirBuilder::stream` tracks which of its samples is selected. -/

/-- Resampling weight of the `k`-th sample, `target_value / source_pdf`. -/
def wtN (samples : ℕ → ℝ × ℝ) (k : ℕ) : ℝ := (samples k).2 / (samples k).1

/-- Sum of the resampling weights of the first `m` samples: the builder's
`weight_sum` after `m` calls to `stream`. -/
def SN (samples : ℕ → ℝ × ℝ) (m : ℕ) : ℝ := ∑ k ∈ Finset.range m, wtN samples k

/-- Stream the first `n` samples into a default builder, tracking the index
of the last sample for which `stream` returned `true`. -/
def runWRS (samples : ℕ → ℝ × ℝ) (u : ℕ → ℝ) : ℕ → ReservoirBuilder × Option ℕ
  | 0 => (ReservoirBuilder.default, none)
  | n + 1 =>
      let st := runWRS samples u n
      let res := st.1.stream (samples n).1 (samples n).2 (u n)
      (res.2, if res.1 = true then some n else st.2)

theorem runWRS_weight_sum (samples : ℕ → ℝ × ℝ) (u : ℕ → ℝ) (n : ℕ) :
    (runWRS samples u n).1.weight_sum = SN samples n := by
  induction n with
  | zero => simp [runWRS, SN, ReservoirBuilder.default]
  | succ n ih =>
      rw [runWRS]
      dsimp only
      rw [stream_snd_weight_sum, ih, SN, SN, Finset.sum_range_succ, wtN]

/-- The `k`-th `stream` call returns `true` exactly on this event of its
uniform draw. -/
def acceptN (samples : ℕ → ℝ × ℝ) (u : ℕ → ℝ) (k : ℕ) : Prop :=
  u k * SN samples (k + 1) < wtN samples k

theorem runWRS_fst_iff (samples : ℕ → ℝ × ℝ) (u : ℕ → ℝ) (n : ℕ) :
    (((runWRS samples u n).1.stream (samples n).1 (samples n).2 (u n)).1 = true)
      ↔ acceptN samples u n := by
  rw [stream_fst_iff, acceptN, runWRS_weight_sum]
  unfold SN wtN
  rw [Finset.sum_range_succ]

/-- After streaming `n` samples the currently selected sample is `i` exactly
when the `i`-th call accepted and no later call did. -/
theorem runWRS_sel_iff (samples : ℕ → ℝ × ℝ) (u : ℕ → ℝ) (n i : ℕ) :
    (runWRS samples u n).2 = some i ↔
      (i < n ∧ acceptN samples u i ∧
        ∀ j, i < j → j < n → ¬ acceptN samples u j) := by
  induction n with
  | zero => simp [runWRS]
  | succ n ih =>
      rw [runWRS]
      dsimp only
      by_cases ha : acceptN samples u n
      · rw [if_pos ((runWRS_fst_iff samples u n).mpr ha)]
        constructor
        · intro h
          have hin : i = n := by
            simpa using h.symm
          subst hin
          exact ⟨Nat.lt_succ_self i, ha, fun j h1 h2 => absurd h2 (by omega)⟩
        · rintro ⟨h1, h2, h3⟩
          rcases Nat.lt_succ_iff_lt_or_eq.mp h1 with h1 | h1
          · exact absurd ha (h3 n h1 (Nat.lt_succ_self n))
          · rw [h1]
      · rw [if_neg (fun hc => ha ((runWRS_fst_iff samples u n).mp (by simpa using hc)))]
        rw [ih]
        constructor
        · rintro ⟨h1, h2, h3⟩
          refine ⟨by omega, h2, fun j hj1 hj2 => ?_⟩
          rcases Nat.lt_succ_iff_lt_or_eq.mp hj2 with hj2 | hj2
          · exact h3 j hj1 hj2
          · rw [hj2]; exact ha
        · rintro ⟨h1, h2, h3⟩
          have hin : i ≠ n := by
            rintro rfl
            exact ha h2
          exact ⟨by omega, h2, fun j hj1 hj2 => h3 j hj1 (by omega)⟩

/-! The probability space of the `n` independent uniform draws, and the
selection probability. -/

/-- Extend a finite tuple of draws to an infinite draw function. -/
def extendFin (n : ℕ) (u : Fin n → ℝ) : ℕ → ℝ :=
  fun k => if h : k < n then u ⟨k, h⟩ else 0

/-- Product measure of `n` independent uniform draws in `[0,1)`. -/
def drawsMeasure (n : ℕ) : Measure (Fin n → ℝ) :=
  Measure.pi fun _ => uniform01

/-- Probability, over the `n` independent uniform draws consumed by the `n`
`stream` calls, that sample `i` is the currently selected sample after all
`n` calls. -/
def selProbability (n : ℕ) (samples : ℕ → ℝ × ℝ) (i : ℕ) : ENNReal :=
  drawsMeasure n
    {u : Fin n → ℝ | (runWRS samples (extendFin n u) n).2 = some i}

/-- The event on the `j`-th draw alone that makes sample `i` the final
selection: any draw before step `i`, an accepting draw at step `i`, a
rejecting draw after step `i`. -/
def coordSet (samples : ℕ → ℝ × ℝ) (i j : ℕ) : Set ℝ :=
  if j < i then Set.univ
  else if j = i then {r : ℝ | r * SN samples (i + 1) < wtN samples i}
  else {r : ℝ | ¬ r * SN samples (j + 1) < wtN samples j}

/-- Probability of the event on the `j`-th draw alone. -/
def coordProb (samples : ℕ → ℝ × ℝ) (i j : ℕ) : ℝ :=
  if j < i then 1
  else if j = i then wtN samples i / SN samples (i + 1)
  else 1 - wtN samples j / SN samples (j + 1)

theorem coordSet_measurable (samples : ℕ → ℝ × ℝ) (i j : ℕ) :
    MeasurableSet (coordSet samples i j) := by
  unfold coordSet
  split
  · exact MeasurableSet.univ
  split
  · exact measurableSet_mul_lt _ _
  · rw [Set.compl_setOf (fun r : ℝ => r * SN samples (j + 1) < wtN samples j)
      |>.symm]
    exact (measurableSet_mul_lt _ _).compl

/-- The final-selection event factors as a product event, one coordinate of
the draw vector at a time. -/
theorem event_eq_pi (samples : ℕ → ℝ × ℝ) (n i : ℕ) (hi : i < n) :
    {u : Fin n → ℝ | (runWRS samples (extendFin n u) n).2 = some i}
      = Set.pi Set.univ (fun j : Fin n => coordSet samples i j.val) := by
  ext u
  simp only [Set.mem_setOf_eq, Set.mem_pi, Set.mem_univ, forall_true_left,
    runWRS_sel_iff]
  constructor
  · rintro ⟨-, hacc, hrej⟩ j
    unfold coordSet
    split
    · exact Set.mem_univ _
    split
    · next h1 h2 =>
        have heq : extendFin n u i = u j := by
          rw [extendFin]
          rw [dif_pos hi]
          congr 1
          exact (Fin.ext h2).symm
        rw [acceptN, heq] at hacc
        exact hacc
    · next h1 h2 =>
        have hij : i < j.val := by omega
        have := hrej j.val hij j.isLt
        have heq : extendFin n u j.val = u j := by
          rw [extendFin, dif_pos j.isLt]
        rw [acceptN, heq] at this
        exact this
  · intro hall
    refine ⟨hi, ?_, ?_⟩
    · have hmem : u ⟨i, hi⟩ ∈ coordSet samples i i := by
        simpa using hall ⟨i, hi⟩
      unfold coordSet at hmem
      rw [if_neg (lt_irrefl i), if_pos rfl] at hmem
      rw [acceptN, extendFin, dif_pos hi]
      exact hmem
    · intro j hj1 hj2
      have hmem : u ⟨j, hj2⟩ ∈ coordSet samples i j := by
        simpa using hall ⟨j, hj2⟩
      unfold coordSet at hmem
      rw [if_neg (by omega), if_neg (by omega)] at hmem
      rw [acceptN, extendFin, dif_pos hj2]
      exact hmem

theorem wtN_nonneg (samples : ℕ → ℝ × ℝ) (k : ℕ)
    (hsp : 0 < (samples k).1) (htv : 0 ≤ (samples k).2) :
    0 ≤ wtN samples k :=
  div_nonneg htv hsp.le

theorem SN_nonneg (samples : ℕ → ℝ × ℝ) (n m : ℕ) (hm : m ≤ n)
    (hsp : ∀ k, k < n → 0 < (samples k).1)
    (htv : ∀ k, k < n → 0 ≤ (samples k).2) :
    0 ≤ SN samples m := by
  refine Finset.sum_nonneg fun k hk => ?_
  have hkn : k < n := by
    have := Finset.mem_range.mp hk
    omega
  exact wtN_nonneg samples k (hsp k hkn) (htv k hkn)

theorem wtN_le_SN_succ (samples : ℕ → ℝ × ℝ) (n j : ℕ) (hj : j < n)
    (hsp : ∀ k, k < n → 0 < (samples k).1)
    (htv : ∀ k, k < n → 0 ≤ (samples k).2) :
    wtN samples j ≤ SN samples (j + 1) := by
  rw [SN, Finset.sum_range_succ]
  have := SN_nonneg samples n j (by omega) hsp htv
  rw [SN] at this
  linarith

/-- Probability of the per-coordinate event. -/
theorem uniform01_coordSet (samples : ℕ → ℝ × ℝ) (n i j : ℕ)
    (hi : i < n) (hj : j < n)
    (hsp : ∀ k, k < n → 0 < (samples k).1)
    (htv : ∀ k, k < n → 0 ≤ (samples k).2) :
    uniform01 (coordSet samples i j) = ENNReal.ofReal (coordProb samples i j) := by
  unfold coordSet coordProb
  split
  · rw [measure_univ, ENNReal.ofReal_one]
  split
  · next h1 h2 =>
      subst h2
      exact uniform01_mul_lt _ _
        (wtN_nonneg samples j (hsp j hj) (htv j hj))
        (wtN_le_SN_succ samples n j hj hsp htv)
  · exact uniform01_not_mul_lt _ _
      (wtN_nonneg samples j (hsp j hj) (htv j hj))
      (wtN_le_SN_succ samples n j hj hsp htv)

theorem coordProb_nonneg (samples : ℕ → ℝ × ℝ) (n i j : ℕ) (hj : j < n)
    (hsp : ∀ k, k < n → 0 < (samples k).1)
    (htv : ∀ k, k < n → 0 ≤ (samples k).2) :
    0 ≤ coordProb samples i j := by
  unfold coordProb
  split
  · norm_num
  split
  · next h1 h2 =>
      subst h2
      exact div_nonneg (wtN_nonneg samples j (hsp j hj) (htv j hj))
        ((wtN_nonneg samples j (hsp j hj) (htv j hj)).trans
          (wtN_le_SN_succ samples n j hj hsp htv))
  · have hw : 0 ≤ wtN samples j := wtN_nonneg samples j (hsp j hj) (htv j hj)
    have hwS := wtN_le_SN_succ samples n j hj hsp htv
    rcases eq_or_lt_of_le (hw.trans hwS) with hS | hS
    · rw [← hS]
      norm_num
    · have : wtN samples j / SN samples (j + 1) ≤ 1 := by
        rw [div_le_one hS]
        exact hwS
      linarith

/-- Telescoping product: the probability that step `i` accepts and all later
steps up to `n` reject is `wtN i / SN n`. -/
theorem coordProb_prod (samples : ℕ → ℝ × ℝ) (n i : ℕ) (hi : i < n)
    (hsp : ∀ k, k < n → 0 < (samples k).1)
    (htv : ∀ k, k < n → 0 ≤ (samples k).2) :
    ∏ j ∈ Finset.range n, coordProb samples i j
      = wtN samples i / SN samples n := by
  induction n with
  | zero => omega
  | succ n ih =>
      rcases Nat.lt_succ_iff_lt_or_eq.mp hi with hi' | hi'
      · have hsp' : ∀ k, k < n → 0 < (samples k).1 := fun k hk => hsp k (by omega)
        have htv' : ∀ k, k < n → 0 ≤ (samples k).2 := fun k hk => htv k (by omega)
        rw [Finset.prod_range_succ, ih hi' hsp' htv']
        have hfn : coordProb samples i n = 1 - wtN samples n / SN samples (n + 1) := by
          unfold coordProb
          rw [if_neg (by omega), if_neg (by omega)]
        rw [hfn]
        have hSsucc : SN samples (n + 1) = SN samples n + wtN samples n := by
          rw [SN, SN, Finset.sum_range_succ]
        rcases eq_or_lt_of_le (SN_nonneg samples (n + 1) n (by omega) hsp htv)
          with hS0 | hSpos
        · have hwt0 : wtN samples i = 0 := by
            have hnn : ∀ k ∈ Finset.range n, 0 ≤ wtN samples k := fun k hk =>
              wtN_nonneg samples k (hsp' k (Finset.mem_range.mp hk))
                (htv' k (Finset.mem_range.mp hk))
            have := (Finset.sum_eq_zero_iff_of_nonneg hnn).mp (by rw [← SN, ← hS0])
            exact this i (Finset.mem_range.mpr hi')
          rw [hwt0]
          simp
        · have hS1pos : 0 < SN samples (n + 1) := by
            have hw : 0 ≤ wtN samples n := wtN_nonneg samples n
              (hsp n (by omega)) (htv n (by omega))
            rw [hSsucc]
            linarith
          have hrw : 1 - wtN samples n / SN samples (n + 1)
              = SN samples n / SN samples (n + 1) := by
            rw [eq_div_iff hS1pos.ne', sub_mul, one_mul,
              div_mul_cancel₀ _ hS1pos.ne', hSsucc]
            ring
          rw [hrw, div_mul_div_comm, mul_comm (wtN samples i) (SN samples n),
            mul_div_mul_left _ _ hSpos.ne']
      · subst hi'
        rw [Finset.prod_range_succ]
        have h1 : ∀ j ∈ Finset.range i, coordProb samples i j = 1 := by
          intro j hj
          unfold coordProb
          rw [if_pos (Finset.mem_range.mp hj)]
        rw [Finset.prod_congr rfl h1, Finset.prod_const_one, one_mul]
        unfold coordProb
        rw [if_neg (lt_irrefl i), if_pos rfl]

theorem selProbability_eq (n : ℕ) (samples : ℕ → ℝ × ℝ)
    (hsp : ∀ k, k < n → 0 < (samples k).1)
    (htv : ∀ k, k < n → 0 ≤ (samples k).2)
    (i : ℕ) (hi : i < n) :
    selProbability n samples i
      = ENNReal.ofReal (wtN samples i / SN samples n) := by
  rw [selProbability, event_eq_pi samples n i hi, drawsMeasure,
    Measure.pi_pi]
  have hcoord : ∀ j : Fin n,
      uniform01 (coordSet samples i j.val)
        = ENNReal.ofReal (coordProb samples i j.val) := fun j =>
    uniform01_coordSet samples n i j.val hi j.isLt hsp htv
  rw [Finset.prod_congr rfl fun j _ => hcoord j]
  have hrange : ∏ j : Fin n, ENNReal.ofReal (coordProb samples i j.val)
      = ∏ j ∈ Finset.range n, ENNReal.ofReal (coordProb samples i j) :=
    Fin.prod_univ_eq_prod_range
      (fun j => ENNReal.ofReal (coordProb samples i j)) n
  rw [hrange, ← ENNReal.ofReal_prod_of_nonneg
    (fun j hj => coordProb_nonneg samples n i j (Finset.mem_range.mp hj) hsp htv),
    coordProb_prod samples n i hi hsp htv]

/-- Claim C1: for every fixed finite sequence of samples with
`source_pdf_i > 0` and `target_value_i ≥ 0` streamed into an initially empty
`ReservoirBuilder` via `stream`, with each call consuming one independent
uniform draw in `[0,1)`, the probability that sample `i` is the currently
selected sample after all `n` calls is exactly
`weight_i / (sum of weight_j)` with `weight_i = target_value_i / source_pdf_i`,
and this probability is the same for every arrival order of the samples. -/
theorem stream_selection_probability (n : ℕ) (samples : ℕ → ℝ × ℝ)
    (hsp : ∀ k, k < n → 0 < (samples k).1)
    (htv : ∀ k, k < n → 0 ≤ (samples k).2)
    (i : ℕ) (hi : i < n) :
    selProbability n samples i
      = ENNReal.ofReal
          (wtN samples i / ∑ k ∈ Finset.range n, wtN samples k) ∧
    ∀ (samples' : ℕ → ℝ × ℝ) (i' : ℕ), i' < n →
      (∀ k, k < n → 0 < (samples' k).1) →
      (∀ k, k < n → 0 ≤ (samples' k).2) →
      samples' i' = samples i →
      (List.ofFn fun k : Fin n => samples' k.val).Perm
        (List.ofFn fun k : Fin n => samples k.val) →
      selProbability n samples' i' = selProbability n samples i := by
  constructor
  · exact selProbability_eq n samples hsp htv i hi
  · intro samples' i' hi' hsp' htv' hsame hperm
    rw [selProbability_eq n samples hsp htv i hi,
      selProbability_eq n samples' hsp' htv' i' hi']
    have hwt : wtN samples' i' = wtN samples i := by
      rw [wtN, wtN, hsame]
    have hsum : SN samples' n = SN samples n := by
      have hmap := hperm.map fun p : ℝ × ℝ => p.2 / p.1
      have hs := hmap.sum_eq
      rw [List.map_ofFn, List.map_ofFn] at hs
      rw [List.sum_ofFn, List.sum_ofFn] at hs
      rw [SN, SN, ← Fin.sum_univ_eq_sum_range, ← Fin.sum_univ_eq_sum_range]
      exact hs
    rw [hwt, hsum]

theorem stream_selection_probability_witness :
    (∀ k, k < 1 → (0 : ℝ) < ((fun _ : ℕ => ((1 : ℝ), (2 : ℝ))) k).1) ∧
    (∀ k, k < 1 → (0 : ℝ) ≤ ((fun _ : ℕ => ((1 : ℝ), (2 : ℝ))) k).2) ∧
    (0 : ℕ) < 1 ∧
    selProbability 1 (fun _ : ℕ => ((1 : ℝ), (2 : ℝ))) 0
      = ENNReal.ofReal
          (wtN (fun _ : ℕ => ((1 : ℝ), (2 : ℝ))) 0
            / ∑ k ∈ Finset.range 1, wtN (fun _ : ℕ => ((1 : ℝ), (2 : ℝ))) k) :=
  ⟨fun _ _ => by norm_num, fun _ _ => by norm_num, by norm_num,
    (stream_selection_probability 1 (fun _ : ℕ => ((1 : ℝ), (2 : ℝ)))
      (fun _ _ => by norm_num) (fun _ _ => by norm_num) 0 (by norm_num)).1⟩

/-- Claim C2: one `stream` call computes `weight = target_value / source_pdf`,
increments `history`, adds `weight` to `weight_sum`, and accepts (replacing
`selected_target_pdf` with `target_value`, returning `true`) exactly with
probability `weight / updated weight_sum` over its uniform draw in `[0,1)`,
otherwise returns `false` leaving the state otherwise unchanged except for
the accumulation; streaming one sample with `source_pdf = 1`,
`target_value = 2` into a default builder yields `history = 1`,
`weight_sum = 2`, `selected_target_pdf = 2`, and finishing with history
bound 1 yields `contribution_weight = 1`. -/
theorem stream_step_spec :
    (∀ (b : ReservoirBuilder) (sp tv r : ℝ),
      (b.stream sp tv r).2.history = b.history + 1 ∧
      (b.stream sp tv r).2.weight_sum = b.weight_sum + tv / sp ∧
      ((b.stream sp tv r).1 = true ↔ r * (b.weight_sum + tv / sp) < tv / sp) ∧
      ((b.stream sp tv r).1 = true →
        (b.stream sp tv r).2.selected_target_pdf = tv) ∧
      ((b.stream sp tv r).1 = false →
        (b.stream sp tv r).2.selected_target_pdf = b.selected_target_pdf)) ∧
    (∀ (b : ReservoirBuilder) (sp tv : ℝ), 0 < sp → 0 ≤ tv → 0 ≤ b.weight_sum →
      uniform01 {r : ℝ | (b.stream sp tv r).1 = true}
        = ENNReal.ofReal ((tv / sp) / (b.weight_sum + tv / sp))) ∧
    (∀ r : ℝ, 0 ≤ r → r < 1 →
      ReservoirBuilder.default.stream 1 2 r = (true, ⟨1, 2, 2⟩)) ∧
    ((⟨1, 2, 2⟩ : ReservoirBuilder).finish_with_history 1).contribution_weight
      = 1 := by
  refine ⟨fun b sp tv r => ⟨stream_snd_history b sp tv r,
      stream_snd_weight_sum b sp tv r, stream_fst_iff b sp tv r,
      stream_snd_pdf_true b sp tv r, stream_snd_pdf_false b sp tv r⟩,
    ?_, ?_, ?_⟩
  · intro b sp tv hsp htv hws
    have hset : {r : ℝ | (b.stream sp tv r).1 = true}
        = {r : ℝ | r * (b.weight_sum + tv / sp) < tv / sp} := by
      ext r
      simp only [Set.mem_setOf_eq, stream_fst_iff]
    rw [hset]
    exact uniform01_mul_lt _ _ (div_nonneg htv hsp.le)
      (by linarith [div_nonneg htv hsp.le])
  · intro r hr0 hr1
    simp only [ReservoirBuilder.stream, ReservoirBuilder.default]
    rw [if_pos (by ring_nf; linarith)]
    norm_num
  · rw [ReservoirBuilder.finish_with_history]
    norm_num

theorem stream_step_spec_witness :
    (0 : ℝ) < 1 ∧ (0 : ℝ) ≤ 2 ∧
    (0 : ℝ) ≤ ReservoirBuilder.default.weight_sum ∧
    uniform01 {r : ℝ | (ReservoirBuilder.default.stream 1 2 r).1 = true}
      = ENNReal.ofReal
          (((2 : ℝ) / 1) / (ReservoirBuilder.default.weight_sum + 2 / 1)) :=
  ⟨by norm_num, by norm_num, le_refl _,
    stream_step_spec.2.1 ReservoirBuilder.default 1 2 (by norm_num)
      (by norm_num) (le_refl _)⟩

/-- Claim C3: one `merge` call adds the other builder's `weight_sum` and
`history` to this one's and adopts the other's `selected_target_pdf`
(returning `true`) exactly with probability
`other.weight_sum / combined weight_sum` over its uniform draw, otherwise
returns `false` keeping this selection; merging two builders each holding
one sample with `weight_sum = 1` yields `weight_sum = 2`, `history = 2`,
and each original sample is selected with probability `1/2`. -/
theorem merge_step_spec :
    (∀ (a b : ReservoirBuilder) (r : ℝ),
      (a.merge b r).2.weight_sum = a.weight_sum + b.weight_sum ∧
      (a.merge b r).2.history = a.history + b.history ∧
      ((a.merge b r).1 = true ↔
        r * (a.weight_sum + b.weight_sum) < b.weight_sum) ∧
      ((a.merge b r).1 = true →
        (a.merge b r).2.selected_target_pdf = b.selected_target_pdf) ∧
      ((a.merge b r).1 = false →
        (a.merge b r).2.selected_target_pdf = a.selected_target_pdf)) ∧
    (∀ a b : ReservoirBuilder, 0 ≤ a.weight_sum → 0 ≤ b.weight_sum →
      uniform01 {r : ℝ | (a.merge b r).1 = true}
        = ENNReal.ofReal (b.weight_sum / (a.weight_sum + b.weight_sum))) ∧
    (∀ a b : ReservoirBuilder, a.weight_sum = 1 → b.weight_sum = 1 →
      a.history = 1 → b.history = 1 →
      (∀ r : ℝ, (a.merge b r).2.weight_sum = 2 ∧ (a.merge b r).2.history = 2) ∧
      uniform01 {r : ℝ | (a.merge b r).1 = true} = ENNReal.ofReal (1 / 2) ∧
      uniform01 {r : ℝ | (a.merge b r).1 = false}
        = ENNReal.ofReal (1 / 2)) := by
  have hacc : ∀ a b : ReservoirBuilder, 0 ≤ a.weight_sum → 0 ≤ b.weight_sum →
      uniform01 {r : ℝ | (a.merge b r).1 = true}
        = ENNReal.ofReal (b.weight_sum / (a.weight_sum + b.weight_sum)) := by
    intro a b ha hb
    have hset : {r : ℝ | (a.merge b r).1 = true}
        = {r : ℝ | r * (a.weight_sum + b.weight_sum) < b.weight_sum} := by
      ext r
      simp only [Set.mem_setOf_eq, merge_fst_iff]
    rw [hset]
    exact uniform01_mul_lt _ _ hb (by linarith)
  refine ⟨fun a b r => ⟨merge_snd_weight_sum a b r, merge_snd_history a b r,
      merge_fst_iff a b r, merge_snd_pdf_true a b r,
      merge_snd_pdf_false a b r⟩, hacc, ?_⟩
  intro a b ha hb hha hhb
  refine ⟨fun r => ⟨by rw [merge_snd_weight_sum, ha, hb]; norm_num,
    by rw [merge_snd_history, hha, hhb]⟩, ?_, ?_⟩
  · rw [hacc a b (by rw [ha]; norm_num) (by rw [hb]; norm_num), ha, hb]
    norm_num
  · have hset : {r : ℝ | (a.merge b r).1 = false}
        = {r : ℝ | ¬ r * (a.weight_sum + b.weight_sum) < b.weight_sum} := by
      ext r
      simp only [Set.mem_setOf_eq, ← merge_fst_iff, Bool.not_eq_true]
    rw [hset, uniform01_not_mul_lt _ _ (by rw [hb]; norm_num)
      (by rw [ha, hb]; norm_num), ha, hb]
    norm_num

theorem merge_step_spec_witness :
    (⟨1, 1, 3⟩ : ReservoirBuilder).weight_sum = 1 ∧
    (⟨1, 1, 4⟩ : ReservoirBuilder).weight_sum = 1 ∧
    (⟨1, 1, 3⟩ : ReservoirBuilder).history = 1 ∧
    (⟨1, 1, 4⟩ : ReservoirBuilder).history = 1 ∧
    uniform01
        {r : ℝ | ((⟨1, 1, 3⟩ : ReservoirBuilder).merge ⟨1, 1, 4⟩ r).1 = true}
      = ENNReal.ofReal (1 / 2) :=
  ⟨rfl, rfl, rfl, rfl,
    (merge_step_spec.2.2 ⟨1, 1, 3⟩ ⟨1, 1, 4⟩ rfl rfl rfl rfl).2.1⟩

/-- Claim C4 counterexample: `finish_with_history` does not clamp the stored
history to its argument; a builder with history 5 finished with history
bound 2 stores history 5, not `min 5 2 = 2`. -/
theorem finish_history_counterexample :
    ((⟨5, 1, 1⟩ : ReservoirBuilder).finish_with_history 2).history = 5 ∧
    (5 : ℕ) ≠ min 5 2 := by
  exact ⟨rfl, by decide⟩

/-- Claim C4 (amended): finalization stores the builder's history unchanged
(no `max_history` clamping happens in `finish`/`finish_with_history`;
clamping a stored history is the separate operation `with_max_history`,
which does take the minimum); the contribution weight equals
`weight_sum / (unbiased_history * selected_target_pdf)` when that
denominator is strictly positive and exactly 0 otherwise, and finishing a
builder with `history = 0` via `finish` yields contribution weight 0. -/
theorem finish_semantics :
    (∀ (b : ReservoirBuilder) (h : ℕ),
      (b.finish_with_history h).history = b.history ∧
      b.finish.history = b.history ∧
      (b.finish_with_history h).contribution_weight
        = (if 0 < (h : ℝ) * b.selected_target_pdf then
            b.weight_sum / ((h : ℝ) * b.selected_target_pdf) else 0)) ∧
    (∀ b : ReservoirBuilder, b.history = 0 →
      b.finish.contribution_weight = 0) ∧
    (∀ (r : Reservoir) (m : ℕ),
      (r.with_max_history m).history = min r.history m) := by
  refine ⟨fun b h => ⟨rfl, rfl, rfl⟩, ?_, fun r m => rfl⟩
  intro b hb
  rw [ReservoirBuilder.finish, ReservoirBuilder.finish_with_history, hb]
  norm_num

theorem finish_semantics_witness :
    (⟨0, 3, 4⟩ : ReservoirBuilder).history = 0 ∧
    (⟨0, 3, 4⟩ : ReservoirBuilder).finish.contribution_weight = 0 :=
  ⟨rfl, finish_semantics.2.1 ⟨0, 3, 4⟩ rfl⟩

/-- Claim C7 counterexample: clamping a zero-history builder with a positive
bound is not a fatal assertion; it succeeds and returns the builder
unchanged. -/
theorem clamp_zero_history_counterexample :
    (⟨0, 0, 0⟩ : ReservoirBuilder).clamp_history 3 = some ⟨0, 0, 0⟩ := rfl

/-- Claim C7 (amended): `clamp_history h` with `h > 0` is a no-op when
`h ≥ history`; when `0 < h < history` it sets `history = h` and rescales
`weight_sum` by `h / history`, leaving `weight_sum / history` unchanged;
calling it with history argument 0 is a fatal assertion; collapsing a
zero-history builder is a fatal assertion of the spec-modelled `collapse`;
but clamping a zero-history builder with a positive bound is a silent
no-op, not an assertion. -/
theorem clamp_history_semantics :
    (∀ (b : ReservoirBuilder) (h : ℕ), 0 < h → b.history ≤ h →
      b.clamp_history h = some b) ∧
    (∀ (b : ReservoirBuilder) (h : ℕ), 0 < h → h < b.history →
      b.clamp_history h
          = some ⟨h, b.weight_sum / (b.history : ℝ) * (h : ℝ),
              b.selected_target_pdf⟩ ∧
        (b.weight_sum / (b.history : ℝ) * (h : ℝ)) / (h : ℝ)
          = b.weight_sum / (b.history : ℝ)) ∧
    (∀ b : ReservoirBuilder, b.clamp_history 0 = none) ∧
    (∀ b : ReservoirBuilder, b.history = 0 → b.collapse = none) ∧
    (∀ (b : ReservoirBuilder) (h : ℕ), b.history = 0 → 0 < h →
      b.clamp_history h = some b) := by
  refine ⟨?_, ?_, ?_, ?_, ?_⟩
  · intro b h hp hle
    rw [ReservoirBuilder.clamp_history, if_neg (by omega), if_neg (by omega)]
  · intro b h hp hlt
    constructor
    · rw [ReservoirBuilder.clamp_history, if_neg (by omega), if_pos hlt]
    · have hne : (h : ℝ) ≠ 0 := Nat.cast_ne_zero.mpr (by omega)
      rw [mul_div_assoc, div_self hne, mul_one]
  · intro b
    rw [ReservoirBuilder.clamp_history, if_pos rfl]
  · intro b hb
    rw [ReservoirBuilder.collapse, if_pos hb]
  · intro b h hb hp
    rw [ReservoirBuilder.clamp_history, if_neg (by omega), if_neg (by omega)]

theorem clamp_history_semantics_witness :
    (0 : ℕ) < 2 ∧ (2 : ℕ) < (⟨5, 10, 1⟩ : ReservoirBuilder).history ∧
    ((⟨5, 10, 1⟩ : ReservoirBuilder).clamp_history 2
        = some ⟨2, (10 : ℝ) / (((5 : ℕ) : ℝ)) * (((2 : ℕ) : ℝ)), 1⟩ ∧
      ((10 : ℝ) / (((5 : ℕ) : ℝ)) * (((2 : ℕ) : ℝ))) / (((2 : ℕ) : ℝ))
        = (10 : ℝ) / (((5 : ℕ) : ℝ))) :=
  ⟨by decide, by decide,
    clamp_history_semantics.2.1 ⟨5, 10, 1⟩ 2 (by decide) (by decide)⟩

/-- Claim C8: for every builder `A` and builder `B`, `merge(A, B)` followed
by `unmerge(B)` restores `A`'s `weight_sum` and `history` exactly to their
pre-merge values, regardless of which sample the merge selected
(`unmerge` is modelled from the spec since the library snapshot lacks it). -/
theorem merge_unmerge_inverse :
    ∀ (a b : ReservoirBuilder) (r : ℝ),
      (((a.merge b r).2).unmerge b).weight_sum = a.weight_sum ∧
      (((a.merge b r).2).unmerge b).history = a.history := by
  intro a b r
  rw [ReservoirBuilder.unmerge]
  rw [merge_snd_weight_sum, merge_snd_history]
  constructor
  · dsimp only
    ring
  · dsimp only
    omega

namespace Restir

/-! Embedding of `examples/restir.rs`: the 2-D world oracle and the per-point
per-frame resampling pipeline `Render::update`.  `glam::Vec2`/`Vec3` become
pairs/triples of reals; the shared `ThreadRng` becomes explicit input
streams: `alphas k` is the `gen_range(0.0..=PI)` draw of candidate `k`, and
`u` is the stream of uniform draws consumed by `stream`/`merge` calls in
order, addressed by an explicit cursor threaded through the phases. -/

structure Vec2 where
  x : ℝ
  y : ℝ

instance : Add Vec2 := ⟨fun v w => ⟨v.x + w.x, v.y + w.y⟩⟩

instance : Sub Vec2 := ⟨fun v w => ⟨v.x - w.x, v.y - w.y⟩⟩

def Vec2.scale (t : ℝ) (v : Vec2) : Vec2 := ⟨t * v.x, t * v.y⟩

def Vec2.dot (v w : Vec2) : ℝ := v.x * w.x + v.y * w.y

def Vec2.length_squared (v : Vec2) : ℝ := v.dot v

def Vec2.length (v : Vec2) : ℝ := Real.sqrt v.length_squared

def Vec2.normalize (v : Vec2) : Vec2 := ⟨v.x / v.length, v.y / v.length⟩

theorem Vec2_add_mk (a b c d : ℝ) :
    (⟨a, b⟩ : Vec2) + ⟨c, d⟩ = ⟨a + c, b + d⟩ := rfl

theorem Vec2_sub_mk (a b c d : ℝ) :
    (⟨a, b⟩ : Vec2) - ⟨c, d⟩ = ⟨a - c, b - d⟩ := rfl

theorem Vec2_scale_mk (t a b : ℝ) :
    Vec2.scale t ⟨a, b⟩ = ⟨t * a, t * b⟩ := rfl

theorem Vec2_dot_mk (a b c d : ℝ) :
    Vec2.dot ⟨a, b⟩ ⟨c, d⟩ = a * c + b * d := rfl

structure Vec3 where
  x : ℝ
  y : ℝ
  z : ℝ

instance : Add Vec3 := ⟨fun v w => ⟨v.x + w.x, v.y + w.y, v.z + w.z⟩⟩

instance : Sub Vec3 := ⟨fun v w => ⟨v.x - w.x, v.y - w.y, v.z - w.z⟩⟩

def Vec3.scale (t : ℝ) (v : Vec3) : Vec3 := ⟨t * v.x, t * v.y, t * v.z⟩

def Vec3.length_squared (v : Vec3) : ℝ := v.x * v.x + v.y * v.y + v.z * v.z

def Vec3.length (v : Vec3) : ℝ := Real.sqrt v.length_squared

def Vec3.zero : Vec3 := ⟨0, 0, 0⟩

theorem Vec3_scale_zero (t : ℝ) : Vec3.scale t Vec3.zero = Vec3.zero := by
  rw [Vec3.zero, Vec3.scale]
  norm_num

/-- Struct `SampleInfo` of `restir.rs`. -/
structure SampleInfo where
  dir : Vec2
  distance : Option ℝ

def SampleInfo.default : SampleInfo := ⟨⟨0, 0⟩, none⟩

/-- Shift mapping of one domain to another (`SampleInfo::shift_map`). -/
def SampleInfo.shift_map (s : SampleInfo) (src_origin dst_origin : Vec2) : Vec2 :=
  match s.distance with
  | some distance => ((src_origin + Vec2.scale distance s.dir) - dst_origin).normalize
  | none => s.dir

/-- Struct `LightInfo` of `restir.rs`. -/
structure LightInfo where
  color : Vec3
  distance : Option ℝ

def LightInfo.default : LightInfo := ⟨Vec3.zero, none⟩

/-- The value assigned to this light (`LightInfo::target_value`). -/
def LightInfo.target_value (l : LightInfo) : ℝ := l.color.length

/-- Struct `WorldConfig` of `restir.rs`; the `occluder_x: Range<u16>` field
is split into its `start` and `end` bounds. -/
structure WorldConfig where
  surface_length : ℕ
  sun_position_x : ℕ
  sun_position_y : ℕ
  sun_color : Vec3
  sky_color : Vec3
  occluder_y : ℕ
  occluder_x_start : ℕ
  occluder_x_end : ℕ

/-- Oracle light query (`WorldConfig::get_incoming_light`). -/
def WorldConfig.get_incoming_light (w : WorldConfig) (origin dir : Vec2) :
    LightInfo :=
  let sun_pos : Vec2 :=
    ⟨(w.sun_position_x : ℝ) + 1 / 2, (w.sun_position_y : ℝ) + 1 / 2⟩
  let diff := sun_pos - origin
  let sun_distance := diff.dot dir
  let leftover := diff - Vec2.scale sun_distance dir
  let sun_radius : ℝ := 1 / 2
  if leftover.length_squared < sun_radius * sun_radius then
    ⟨w.sun_color, some sun_distance⟩
  else
    ⟨w.sky_color, none⟩

/-- Oracle visibility query (`WorldConfig::check_visibility`): the early
`return false`/`return true` chain becomes a conjunction/disjunction. -/
def WorldConfig.check_visibility (w : WorldConfig) (origin dir : Vec2) : Prop :=
  0 < dir.y ∧
    ((w.occluder_y : ℝ) < origin.y ∨
      origin.x + dir.x * (((w.occluder_y : ℝ) + 1 / 2 - origin.y) / dir.y)
          < (w.occluder_x_start : ℝ) ∨
        (w.occluder_x_end : ℝ)
          < origin.x + dir.x * (((w.occluder_y : ℝ) + 1 / 2 - origin.y) / dir.y))

/-- Enum `Convergence` of `restir.rs`. -/
inductive Convergence where
  | Precise (unbias : Bool)
  | LeanAndMean (initial_visibility : Bool)
deriving DecidableEq

/-- Struct `RestirConfig` of `restir.rs`. -/
structure RestirConfig where
  convergence : Convergence
  initial_samples : ℕ
  max_initial_history : ℕ
  max_temporal_history : ℕ
  max_spatial_history : ℕ

/-- Struct `Config` of `restir.rs`. -/
structure Config where
  world : WorldConfig
  restir : RestirConfig
  accumulation : ℝ

/-- Struct `Pixel` of `restir.rs`. -/
structure Pixel where
  reservoir : Reservoir
  selected_sample : SampleInfo
  color : Vec3
  color_accumulated : Vec3
  variance_accumulated : ℝ

def Pixel.default : Pixel :=
  ⟨⟨0, 0⟩, SampleInfo.default, Vec3.zero, Vec3.zero, 0⟩

/-- The mutable locals of one pixel's `Render::update` body: the builder
together with `selected_dir` and `selected_linfo`. -/
structure SelState where
  builder : ReservoirBuilder
  selected_dir : Vec2
  selected_linfo : LightInfo

/-- The surface position of a cell, `vec2(cell_index as f32 + 0.5, 0.0)`. -/
def surfacePos (cell_index : ℕ) : Vec2 := ⟨(cell_index : ℝ) + 1 / 2, 0⟩

/-- One iteration of the initial-candidate loop of `Render::update`.  The
second component of the state is the cursor into the uniform-draw stream. -/
def candStep (cfg : Config) (pos : Vec2) (alphas u : ℕ → ℝ)
    (st : SelState × ℕ) (k : ℕ) : SelState × ℕ :=
  let alpha := alphas k
  let dir : Vec2 := ⟨Real.cos alpha, Real.sin alpha⟩
  let is_visible : Prop :=
    match cfg.restir.convergence with
    | Convergence.Precise _ => cfg.world.check_visibility pos dir
    | Convergence.LeanAndMean _ => True
  if is_visible then
    let linfo := cfg.world.get_incoming_light pos dir
    let res := st.1.builder.stream (1 / Real.pi) linfo.target_value (u st.2)
    (⟨res.2, if res.1 then dir else st.1.selected_dir,
      if res.1 then linfo else st.1.selected_linfo⟩, st.2 + 1)
  else
    (⟨st.1.builder.add_empty_sample, st.1.selected_dir,
      st.1.selected_linfo⟩, st.2)

/-- The whole initial-candidate loop (`for _ in 0..initial_samples`). -/
def candLoop (cfg : Config) (pos : Vec2) (alphas u : ℕ → ℝ) : SelState × ℕ :=
  (List.range cfg.restir.initial_samples).foldl (candStep cfg pos alphas u)
    (⟨ReservoirBuilder.default, ⟨0, 0⟩, LightInfo.default⟩, 0)

/-- The `LeanAndMean { initial_visibility: true }` selected-sample
visibility check after the candidate loop. -/
def afterLeanCheck (cfg : Config) (pos : Vec2) (st : SelState) : SelState :=
  match cfg.restir.convergence with
  | Convergence.LeanAndMean true =>
      if cfg.world.check_visibility pos st.selected_dir then st
      else ⟨st.builder, st.selected_dir, LightInfo.default⟩
  | _ => st

/-- Candidate generation followed by the lean visibility check and
`clamp_history(max_initial_history)`; `none` when the clamp asserts. -/
def phase1 (cfg : Config) (pos : Vec2) (alphas u : ℕ → ℝ) :
    Option (SelState × ℕ) :=
  let st := afterLeanCheck cfg pos (candLoop cfg pos alphas u).1
  (st.builder.clamp_history cfg.restir.max_initial_history).map
    (fun b => (⟨b, st.selected_dir, st.selected_linfo⟩,
      (candLoop cfg pos alphas u).2))

/-- Temporal reuse of the previous frame's reservoir at the same point.
Note the two reads of the same point's previous sample: the target PDF is
reconstructed for `pixel.selected_sample.dir` read through the pixel slot
`cur`, while the merge success stores `prev_sample.dir` read from the
backup, exactly as in the Rust code. -/
def temporalPhase (cfg : Config) (backup : ℕ → Reservoir × SampleInfo)
    (cell_index : ℕ) (pos : Vec2) (cur : Pixel) (u : ℕ → ℝ)
    (st : SelState) (dp : ℕ) : SelState × ℕ :=
  if cfg.restir.max_temporal_history ≠ 0 then
    let prev_sample := (backup cell_index).2
    let prev := (backup cell_index).1.with_max_history
      cfg.restir.max_temporal_history
    if prev.has_weight then
      let linfo := cfg.world.get_incoming_light pos cur.selected_sample.dir
      let other := prev.to_builder linfo.target_value
      let res := st.builder.merge other (u dp)
      (⟨res.2, if res.1 then prev_sample.dir else st.selected_dir,
        if res.1 then linfo else st.selected_linfo⟩, dp + 1)
    else
      (⟨st.builder.merge_history prev, st.selected_dir, st.selected_linfo⟩, dp)
  else (st, dp)

/-- Candidate and temporal phases chained. -/
def phase12 (cfg : Config) (backup : ℕ → Reservoir × SampleInfo)
    (cell_index : ℕ) (cur : Pixel) (alphas u : ℕ → ℝ) :
    Option (SelState × ℕ) :=
  (phase1 cfg (surfacePos cell_index) alphas u).map
    (fun sd => temporalPhase cfg backup cell_index (surfacePos cell_index)
      cur u sd.1 sd.2)

/-- One neighbor of the spatial-reuse loop; the accumulator also carries
`selected_cell` and the draw cursor. -/
def spatialStep (cfg : Config) (backup : ℕ → Reservoir × SampleInfo)
    (cell_index : ℕ) (pos : Vec2) (u : ℕ → ℝ)
    (acc : SelState × ℤ × ℕ) (offset : ℤ) : SelState × ℤ × ℕ :=
  let index : ℤ := (cell_index : ℤ) + offset
  if index < 0 ∨ (cfg.world.surface_length : ℤ) ≤ index then acc
  else
    let st := acc.1
    let selected_cell := acc.2.1
    let dp := acc.2.2
    let prev_sample := (backup index.toNat).2
    let prev := (backup index.toNat).1.with_max_history
      cfg.restir.max_spatial_history
    let other_pos : Vec2 := ⟨pos.x + (offset : ℝ), pos.y⟩
    if prev.has_weight then
      let surface_dir := prev_sample.shift_map other_pos pos
      let is_visible : Prop :=
        match cfg.restir.convergence with
        | Convergence.Precise _ => cfg.world.check_visibility pos surface_dir
        | Convergence.LeanAndMean _ => True
      if is_visible then
        let linfo := cfg.world.get_incoming_light pos surface_dir
        let other := prev.to_builder linfo.target_value
        let res := st.builder.merge other (u dp)
        (⟨res.2, if res.1 then surface_dir else st.selected_dir,
          if res.1 then linfo else st.selected_linfo⟩,
          if res.1 then index else selected_cell, dp + 1)
      else
        (⟨st.builder.merge_history prev, st.selected_dir, st.selected_linfo⟩,
          selected_cell, dp)
    else
      (⟨st.builder.merge_history prev, st.selected_dir, st.selected_linfo⟩,
        selected_cell, dp)

/-- The spatial-reuse loop over the neighbor offsets `[-1, 1]`, with
`selected_cell` starting at `-1`. -/
def spatialLoop (cfg : Config) (backup : ℕ → Reservoir × SampleInfo)
    (cell_index : ℕ) (pos : Vec2) (u : ℕ → ℝ)
    (st : SelState) (dp : ℕ) : SelState × ℤ × ℕ :=
  ([-1, 1] : List ℤ).foldl (spatialStep cfg backup cell_index pos u)
    (st, -1, dp)

/-- The spatial block runs only when `max_spatial_history != 0`. -/
def afterSpatial (cfg : Config) (backup : ℕ → Reservoir × SampleInfo)
    (cell_index : ℕ) (pos : Vec2) (u : ℕ → ℝ)
    (st : SelState) (dp : ℕ) : SelState × ℤ × ℕ :=
  if cfg.restir.max_spatial_history ≠ 0 then
    spatialLoop cfg backup cell_index pos u st dp
  else (st, -1, dp)

/-- One neighbor of the post-factum rejection pass of
`Convergence::Precise { unbias: true }`. -/
def unbiasStep (cfg : Config) (backup : ℕ → Reservoir × SampleInfo)
    (cell_index : ℕ) (pos : Vec2) (selected_sample : SampleInfo)
    (selected_cell : ℤ) (acc : ℕ) (offset : ℤ) : ℕ :=
  let index : ℤ := (cell_index : ℤ) + offset
  if index < 0 ∨ (cfg.world.surface_length : ℤ) ≤ index then acc
  else
    let other_pos : Vec2 := ⟨pos.x + (offset : ℝ), pos.y⟩
    let covers_domain : Prop :=
      index = selected_cell ∨
        cfg.world.check_visibility other_pos
          (selected_sample.shift_map pos other_pos)
    if covers_domain then
      acc + ((backup index.toNat).1.with_max_history
        cfg.restir.max_spatial_history).history
    else acc

/-- The whole post-factum rejection pass, accumulating onto `base`. -/
def unbiasPass (cfg : Config) (backup : ℕ → Reservoir × SampleInfo)
    (cell_index : ℕ) (pos : Vec2) (st3 : SelState) (selected_cell : ℤ)
    (base : ℕ) : ℕ :=
  ([-1, 1] : List ℤ).foldl
    (unbiasStep cfg backup cell_index pos
      ⟨st3.selected_dir, st3.selected_linfo.distance⟩ selected_cell) base

/-- The `unbiased_history` value of `Render::update`, given the
post-temporal state `st2` (whose `builder.history()` initializes it) and
the draw cursor: exactly the assignments of lines 303-372 of `restir.rs`. -/
def unbiasedHistoryCode (cfg : Config) (backup : ℕ → Reservoir × SampleInfo)
    (cell_index : ℕ) (pos : Vec2) (u : ℕ → ℝ)
    (st2 : SelState) (dp2 : ℕ) : ℕ :=
  if cfg.restir.max_spatial_history ≠ 0 then
    let s3 := spatialLoop cfg backup cell_index pos u st2 dp2
    match cfg.restir.convergence with
    | Convergence.Precise true =>
        unbiasPass cfg backup cell_index pos s3.1 s3.2.1 st2.builder.history
    | _ => s3.1.builder.history
  else st2.builder.history

/-- The final `LeanAndMean` visibility check on the selected sample. -/
def leanFinalCheck (cfg : Config) (pos : Vec2) (st : SelState) : SelState :=
  match cfg.restir.convergence with
  | Convergence.LeanAndMean _ =>
      if 0 < st.selected_linfo.target_value ∧
          ¬ cfg.world.check_visibility pos st.selected_dir then
        ⟨st.builder, st.selected_dir, LightInfo.default⟩
      else st
  | _ => st

/-- One pixel's whole `Render::update` body: `cur` is the pixel's own slot
in the (not yet overwritten) pixel array, `backup` the pre-loop snapshot;
`none` when the history clamp asserts. -/
def updatePixel (cfg : Config) (backup : ℕ → Reservoir × SampleInfo)
    (cell_index : ℕ) (cur : Pixel) (alphas u : ℕ → ℝ) : Option Pixel :=
  (phase12 cfg backup cell_index cur alphas u).map fun sd =>
    let pos := surfacePos cell_index
    let s3 := afterSpatial cfg backup cell_index pos u sd.1 sd.2
    let ub := unbiasedHistoryCode cfg backup cell_index pos u sd.1 sd.2
    let st4 := leanFinalCheck cfg pos s3.1
    let reservoir := s3.1.builder.finish_with_history ub
    let color := Vec3.scale reservoir.contribution_weight
      st4.selected_linfo.color
    ⟨reservoir, ⟨st4.selected_dir, st4.selected_linfo.distance⟩, color,
      Vec3.scale (1 - cfg.accumulation) cur.color_accumulated
        + Vec3.scale cfg.accumulation color,
      cur.variance_accumulated * (1 - cfg.accumulation)
        + cfg.accumulation * (color - cur.color_accumulated).length_squared⟩

/-- The pre-loop snapshot of the pixel array (`backup` in `Render::update`). -/
def backupOf (pixels : ℕ → Pixel) : ℕ → Reservoir × SampleInfo :=
  fun i => ((pixels i).reservoir, (pixels i).selected_sample)

/-- One step of the per-frame in-place pixel loop: update slot `i` of the
current array, reading neighbors from the snapshot and slot `i` from the
array itself.  `R i` is pixel `i`'s own pair of random streams. -/
def frameStep (cfg : Config) (backup : ℕ → Reservoir × SampleInfo)
    (R : ℕ → (ℕ → ℝ) × (ℕ → ℝ)) (acc : Option (ℕ → Pixel)) (i : ℕ) :
    Option (ℕ → Pixel) :=
  acc.bind fun arr =>
    (updatePixel cfg backup i (arr i) (R i).1 (R i).2).map
      fun p => Function.update arr i p

/-- One whole frame: snapshot the array, then update the points in the
given processing order, in place. -/
def frameUpdate (cfg : Config) (pixels : ℕ → Pixel)
    (R : ℕ → (ℕ → ℝ) × (ℕ → ℝ)) (order : List ℕ) : Option (ℕ → Pixel) :=
  order.foldl (frameStep cfg (backupOf pixels) R) (some pixels)

/-- The reciprocity test of the unbias pass for the neighbor at `offset`:
the neighbor is in range, and either it produced the winning sample or the
winning sample shift-mapped back into the neighbor's domain is visible
there. -/
def passesReciprocity (cfg : Config) (cell_index : ℕ) (pos : Vec2)
    (st3 : SelState) (selected_cell : ℤ) (offset : ℤ) : Prop :=
  ¬((cell_index : ℤ) + offset < 0 ∨
      (cfg.world.surface_length : ℤ) ≤ (cell_index : ℤ) + offset) ∧
    ((cell_index : ℤ) + offset = selected_cell ∨
      cfg.world.check_visibility ⟨pos.x + (offset : ℝ), pos.y⟩
        ((⟨st3.selected_dir, st3.selected_linfo.distance⟩ :
            SampleInfo).shift_map pos ⟨pos.x + (offset : ℝ), pos.y⟩))

/-- Follows the spec wording of claim C5: the current point's own
accumulated history (the builder's history after the candidate and temporal
phases) plus the sum of the spatially clamped histories of exactly those
neighbors whose domain passes the reciprocity test. -/
def unbiasedHistorySpec (cfg : Config) (backup : ℕ → Reservoir × SampleInfo)
    (cell_index : ℕ) (pos : Vec2) (u : ℕ → ℝ)
    (st2 : SelState) (dp2 : ℕ) : ℕ :=
  let s3 := afterSpatial cfg backup cell_index pos u st2 dp2
  st2.builder.history +
    ((([-1, 1] : List ℤ).filter
        (fun o => decide (passesReciprocity cfg cell_index pos s3.1 s3.2.1 o))).map
      (fun o => ((backup ((cell_index : ℤ) + o).toNat).1.with_max_history
        cfg.restir.max_spatial_history).history)).sum

theorem unbiasStep_eq (cfg : Config) (backup : ℕ → Reservoir × SampleInfo)
    (cell_index : ℕ) (pos : Vec2) (st3 : SelState) (selected_cell : ℤ)
    (acc : ℕ) (offset : ℤ) :
    unbiasStep cfg backup cell_index pos
        ⟨st3.selected_dir, st3.selected_linfo.distance⟩ selected_cell acc offset
      = acc + (if passesReciprocity cfg cell_index pos st3 selected_cell offset
          then ((backup ((cell_index : ℤ) + offset).toNat).1.with_max_history
            cfg.restir.max_spatial_history).history
          else 0) := by
  rw [unbiasStep, passesReciprocity]
  by_cases h1 : (cell_index : ℤ) + offset < 0 ∨
      (cfg.world.surface_length : ℤ) ≤ (cell_index : ℤ) + offset
  · rw [if_pos h1, if_neg (by tauto), Nat.add_zero]
  · rw [if_neg h1]
    by_cases h2 : (cell_index : ℤ) + offset = selected_cell ∨
        cfg.world.check_visibility ⟨pos.x + (offset : ℝ), pos.y⟩
          ((⟨st3.selected_dir, st3.selected_linfo.distance⟩ :
              SampleInfo).shift_map pos ⟨pos.x + (offset : ℝ), pos.y⟩)
    · rw [if_pos h2, if_pos ⟨h1, h2⟩]
    · rw [if_neg h2, if_neg (by tauto), Nat.add_zero]

/-- Claim C5: in unbiased mode (`Precise` with `unbias` on), after the final
selection is known the pipeline's `unbiased_history` equals the current
point's own accumulated history plus the sum of the spatially clamped
histories of exactly those neighbors whose domain passes the reciprocity
test (the winning sample shift-mapped back into the neighbor's domain is
visible there; the neighbor that produced the winning sample passes
automatically), and this `unbiased_history` — not the raw merged history —
is the history used by `finish_with_history` at finalize time. -/
theorem unbiased_history_reciprocity :
    ∀ (cfg : Config) (backup : ℕ → Reservoir × SampleInfo) (cell_index : ℕ)
      (cur : Pixel) (alphas u : ℕ → ℝ),
      cfg.restir.convergence = Convergence.Precise true →
      (∀ (st2 : SelState) (dp2 : ℕ),
        unbiasedHistoryCode cfg backup cell_index (surfacePos cell_index) u
            st2 dp2
          = unbiasedHistorySpec cfg backup cell_index (surfacePos cell_index) u
              st2 dp2) ∧
      (updatePixel cfg backup cell_index cur alphas u).map (fun p => p.reservoir)
        = (phase12 cfg backup cell_index cur alphas u).map
            (fun sd =>
              (afterSpatial cfg backup cell_index (surfacePos cell_index) u
                  sd.1 sd.2).1.builder.finish_with_history
                (unbiasedHistorySpec cfg backup cell_index
                  (surfacePos cell_index) u sd.1 sd.2)) := by
  intro cfg backup cell_index cur alphas u hconv
  have hcode : ∀ (st2 : SelState) (dp2 : ℕ),
      unbiasedHistoryCode cfg backup cell_index (surfacePos cell_index) u
          st2 dp2
        = unbiasedHistorySpec cfg backup cell_index (surfacePos cell_index) u
            st2 dp2 := by
    intro st2 dp2
    rw [unbiasedHistoryCode, unbiasedHistorySpec, afterSpatial]
    by_cases hms : cfg.restir.max_spatial_history ≠ 0
    · rw [if_pos hms, if_pos hms]
      simp only [hconv]
      rw [unbiasPass]
      simp only [List.foldl_cons, List.foldl_nil]
      rw [unbiasStep_eq, unbiasStep_eq]
      by_cases hp1 : passesReciprocity cfg cell_index (surfacePos cell_index)
          (spatialLoop cfg backup cell_index (surfacePos cell_index) u st2 dp2).1
          (spatialLoop cfg backup cell_index (surfacePos cell_index) u st2 dp2).2.1
          (-1) <;>
        by_cases hp2 : passesReciprocity cfg cell_index (surfacePos cell_index)
          (spatialLoop cfg backup cell_index (surfacePos cell_index) u st2 dp2).1
          (spatialLoop cfg backup cell_index (surfacePos cell_index) u st2 dp2).2.1
          1 <;>
        (simp [hp1, hp2, List.filter]; try omega)
    · rw [if_neg hms, if_neg hms]
      push_neg at hms
      have hz : ∀ x ∈ (((([-1, 1] : List ℤ).filter
          (fun o => decide (passesReciprocity cfg cell_index
            (surfacePos cell_index) st2 (-1) o))).map
          (fun o => ((backup ((cell_index : ℤ) + o).toNat).1.with_max_history
            cfg.restir.max_spatial_history).history))), x = 0 := by
        intro x hx
        rcases List.mem_map.mp hx with ⟨o, _, ho⟩
        rw [← ho, hms, Reservoir.with_max_history]
        exact Nat.min_zero _
      rw [List.sum_eq_zero hz, Nat.add_zero]
  refine ⟨hcode, ?_⟩
  rw [updatePixel, Option.map_map]
  rcases hph : phase12 cfg backup cell_index cur alphas u with _ | sd
  · rfl
  · simp only [Option.map_some', Function.comp_apply]
    rw [hcode sd.1 sd.2]

/-- The per-point pure update: what one point's new pixel is as a function
of the previous frame's snapshot, the point's own previous pixel, and the
point's own random streams. -/
def pureUpdate (cfg : Config) (pixels : ℕ → Pixel)
    (R : ℕ → (ℕ → ℝ) × (ℕ → ℝ)) (i : ℕ) : Option Pixel :=
  updatePixel cfg (backupOf pixels) i (pixels i) (R i).1 (R i).2

theorem frameStep_none (cfg : Config) (backup : ℕ → Reservoir × SampleInfo)
    (R : ℕ → (ℕ → ℝ) × (ℕ → ℝ)) (i : ℕ) :
    frameStep cfg backup R none i = none := rfl

theorem foldl_frameStep_none (cfg : Config)
    (backup : ℕ → Reservoir × SampleInfo) (R : ℕ → (ℕ → ℝ) × (ℕ → ℝ)) :
    ∀ order : List ℕ, order.foldl (frameStep cfg backup R) none = none := by
  intro order
  induction order with
  | nil => rfl
  | cons i rest ih => rw [List.foldl_cons, frameStep_none, ih]

/-- Characterization of the in-place frame loop over a duplicate-free
processing order, starting from an array whose still-unprocessed slots hold
the original pixels: it fails exactly when some point's pure update fails,
and otherwise every processed slot holds that point's pure update. -/
theorem frameLoop_char (cfg : Config) (pixels : ℕ → Pixel)
    (R : ℕ → (ℕ → ℝ) × (ℕ → ℝ)) :
    ∀ (order : List ℕ) (arr : ℕ → Pixel), order.Nodup →
      (∀ j, j ∈ order → arr j = pixels j) →
      order.foldl (frameStep cfg (backupOf pixels) R) (some arr)
        = if ∀ i ∈ order, (pureUpdate cfg pixels R i).isSome then
            some (fun j => if j ∈ order then
              (pureUpdate cfg pixels R j).getD (arr j) else arr j)
          else none := by
  intro order
  induction order with
  | nil =>
      intro arr hnd harr
      rw [List.foldl_nil, if_pos (by simp)]
      congr 1
  | cons i rest ih =>
      intro arr hnd harr
      have hi_rest : i ∉ rest := (List.nodup_cons.mp hnd).1
      have hnd_rest : rest.Nodup := (List.nodup_cons.mp hnd).2
      have harr_i : arr i = pixels i := harr i (List.mem_cons_self i rest)
      rw [List.foldl_cons]
      rcases hupd : pureUpdate cfg pixels R i with _ | p
      · have hstep : frameStep cfg (backupOf pixels) R (some arr) i = none := by
          rw [frameStep]
          simp only [Option.some_bind]
          rw [harr_i]
          rw [pureUpdate] at hupd
          rw [hupd]
          rfl
        rw [hstep, foldl_frameStep_none,
          if_neg (fun hall => by
            have := hall i (List.mem_cons_self i rest)
            rw [hupd] at this
            exact absurd this (by simp))]
      · have hstep : frameStep cfg (backupOf pixels) R (some arr) i
            = some (Function.update arr i p) := by
          rw [frameStep]
          simp only [Option.some_bind]
          rw [harr_i]
          rw [pureUpdate] at hupd
          rw [hupd]
          rfl
        rw [hstep]
        have harr' : ∀ j, j ∈ rest → Function.update arr i p j = pixels j := by
          intro j hj
          have hji : j ≠ i := fun hji => hi_rest (hji ▸ hj)
          rw [Function.update_apply, if_neg hji]
          exact harr j (List.mem_cons_of_mem i hj)
        rw [ih (Function.update arr i p) hnd_rest harr']
        by_cases hall : ∀ i' ∈ rest, (pureUpdate cfg pixels R i').isSome
        · rw [if_pos hall, if_pos (by
            intro i' hi'
            rcases List.mem_cons.mp hi' with h | h
            · rw [h, hupd]; rfl
            · exact hall i' h)]
          congr 1
          funext j
          by_cases hjr : j ∈ rest
          · rw [if_pos hjr, if_pos (List.mem_cons_of_mem i hjr)]
            have hji : j ≠ i := fun hji => hi_rest (hji ▸ hjr)
            rcases Option.isSome_iff_exists.mp (hall j hjr) with ⟨q, hq⟩
            rw [hq, Option.getD_some, Option.getD_some]
          · rw [if_neg hjr]
            by_cases hji : j = i
            · rw [hji, if_pos (List.mem_cons_self i rest), hupd,
                Option.getD_some, Function.update_same]
            · rw [if_neg (by
                intro hmem
                rcases List.mem_cons.mp hmem with h | h
                · exact hji h
                · exact hjr h), Function.update_apply, if_neg hji]
        · rw [if_neg hall, if_neg (fun hall' => hall fun i' hi' =>
            hall' i' (List.mem_cons_of_mem i hi'))]

/-- Claim C10: with each point given its own independent random streams,
the in-place frame loop reads only the pre-loop snapshot and each point's
own not-yet-overwritten slot, so the new pixel written for a point is the
pure function `pureUpdate` of the previous frame's pixel array alone, and
the whole frame result is identical under any processing order of the
points. -/
theorem frame_snapshot_order_independence :
    ∀ (cfg : Config) (pixels : ℕ → Pixel) (R : ℕ → (ℕ → ℝ) × (ℕ → ℝ))
      (order order' : List ℕ), order.Nodup → order.Perm order' →
      frameUpdate cfg pixels R order = frameUpdate cfg pixels R order' ∧
      (∀ arr, frameUpdate cfg pixels R order = some arr →
        ∀ i ∈ order, pureUpdate cfg pixels R i = some (arr i)) := by
  intro cfg pixels R order order' hnd hperm
  have hchar : ∀ l : List ℕ, l.Nodup →
      frameUpdate cfg pixels R l
        = if ∀ i ∈ l, (pureUpdate cfg pixels R i).isSome then
            some (fun j => if j ∈ l then
              (pureUpdate cfg pixels R j).getD (pixels j) else pixels j)
          else none := fun l hl =>
    frameLoop_char cfg pixels R l pixels hl (fun _ _ => rfl)
  constructor
  · rw [hchar order hnd, hchar order' (hperm.nodup hnd)]
    have hmem : ∀ j, j ∈ order ↔ j ∈ order' := fun j => hperm.mem_iff
    by_cases hall : ∀ i ∈ order, (pureUpdate cfg pixels R i).isSome
    · rw [if_pos hall, if_pos (fun i hi => hall i ((hmem i).mpr hi))]
      congr 1
      funext j
      by_cases hj : j ∈ order
      · rw [if_pos hj, if_pos ((hmem j).mp hj)]
      · rw [if_neg hj, if_neg (fun hc => hj ((hmem j).mpr hc))]
    · rw [if_neg hall, if_neg (fun hall' => hall fun i hi =>
        hall' i ((hmem i).mp hi))]
  · intro arr harr i hi
    rw [hchar order hnd] at harr
    by_cases hall : ∀ i' ∈ order, (pureUpdate cfg pixels R i').isSome
    · rw [if_pos hall] at harr
      have harr' := (Option.some_inj.mp harr)
      rcases Option.isSome_iff_exists.mp (hall i hi) with ⟨q, hq⟩
      rw [hq]
      congr 1
      rw [← congrFun harr' i, if_pos hi, hq, Option.getD_some]
    · rw [if_neg hall] at harr
      exact absurd harr (by simp)

/-! Concrete scenarios used by counterexamples and witnesses: the world of
`main()` (shrunk to one or two surface cells), the candidate direction drawn
at `alpha = 0` (lying flat along the surface, hence invisible), and all-zero
random streams. -/

def world1 : WorldConfig := ⟨1, 5, 10, ⟨10, 10, 1⟩, ⟨0, 0, 1⟩, 5, 7, 15⟩

def cfgLean : Config :=
  ⟨world1, ⟨Convergence.LeanAndMean false, 1, 1, 0, 0⟩, 1 / 2⟩

def cfgLean2 : Config :=
  ⟨world1, ⟨Convergence.LeanAndMean false, 2, 5, 0, 0⟩, 1 / 2⟩

def cfgPrec : Config :=
  ⟨world1, ⟨Convergence.Precise true, 1, 1, 0, 0⟩, 1 / 2⟩

def backup1 : ℕ → Reservoir × SampleInfo :=
  fun _ => (⟨0, 0⟩, SampleInfo.default)

def zeros : ℕ → ℝ := fun _ => 0

theorem surfacePos_zero : surfacePos 0 = ⟨1 / 2, 0⟩ := by
  rw [surfacePos]
  norm_num

theorem sky_target_value :
    LightInfo.target_value ⟨⟨0, 0, 1⟩, none⟩ = 1 := by
  rw [LightInfo.target_value, Vec3.length, Vec3.length_squared]
  norm_num

theorem light_eval :
    world1.get_incoming_light ⟨1 / 2, 0⟩ ⟨1, 0⟩ = ⟨⟨0, 0, 1⟩, none⟩ := by
  simp only [WorldConfig.get_incoming_light, world1, Vec2_sub_mk, Vec2_dot_mk,
    Vec2_scale_mk, Vec2.length_squared]
  norm_num

theorem vis_eval : ¬ world1.check_visibility ⟨1 / 2, 0⟩ ⟨1, 0⟩ := by
  rw [WorldConfig.check_visibility]
  intro h
  exact absurd h.1 (by norm_num)

theorem stream_eval_1 :
    ReservoirBuilder.default.stream (1 / Real.pi) 1 0
      = (true, ⟨1, Real.pi, 1⟩) := by
  simp only [ReservoirBuilder.stream, ReservoirBuilder.default, one_div_one_div]
  rw [if_pos (by norm_num [Real.pi_pos])]
  norm_num

theorem stream_eval_2 :
    (⟨1, Real.pi, 1⟩ : ReservoirBuilder).stream (1 / Real.pi) 1 0
      = (true, ⟨2, Real.pi + Real.pi, 1⟩) := by
  simp only [ReservoirBuilder.stream, one_div_one_div]
  rw [if_pos (by norm_num [Real.pi_pos])]

theorem candStep_lean_eval (cfg : Config) (hw : cfg.world = world1)
    (hconv : cfg.restir.convergence = Convergence.LeanAndMean false)
    (st : SelState × ℕ) (k : ℕ) :
    candStep cfg (surfacePos 0) zeros zeros st k
      = (⟨(st.1.builder.stream (1 / Real.pi) 1 0).2,
          if (st.1.builder.stream (1 / Real.pi) 1 0).1 then ⟨1, 0⟩
            else st.1.selected_dir,
          if (st.1.builder.stream (1 / Real.pi) 1 0).1 then ⟨⟨0, 0, 1⟩, none⟩
            else st.1.selected_linfo⟩, st.2 + 1) := by
  rw [candStep]
  simp only [zeros, Real.cos_zero, Real.sin_zero, hconv]
  rw [if_pos trivial, hw, surfacePos_zero, light_eval, sky_target_value]

theorem candLoop_cfgLean :
    candLoop cfgLean (surfacePos 0) zeros zeros
      = (⟨⟨1, Real.pi, 1⟩, ⟨1, 0⟩, ⟨⟨0, 0, 1⟩, none⟩⟩, 1) := by
  rw [candLoop, show cfgLean.restir.initial_samples = 1 from rfl,
    show List.range 1 = [0] from rfl, List.foldl_cons, List.foldl_nil,
    candStep_lean_eval cfgLean rfl rfl, stream_eval_1]
  norm_num

theorem candLoop_cfgLean2 :
    candLoop cfgLean2 (surfacePos 0) zeros zeros
      = (⟨⟨2, Real.pi + Real.pi, 1⟩, ⟨1, 0⟩, ⟨⟨0, 0, 1⟩, none⟩⟩, 2) := by
  rw [candLoop, show cfgLean2.restir.initial_samples = 2 from rfl,
    show List.range 2 = [0, 1] from rfl, List.foldl_cons,
    candStep_lean_eval cfgLean2 rfl rfl, stream_eval_1]
  norm_num
  rw [candStep_lean_eval cfgLean2 rfl rfl, stream_eval_2]
  rfl

theorem phase1_cfgLean :
    phase1 cfgLean (surfacePos 0) zeros zeros
      = some (⟨⟨1, Real.pi, 1⟩, ⟨1, 0⟩, ⟨⟨0, 0, 1⟩, none⟩⟩, 1) := by
  rw [phase1, candLoop_cfgLean]
  rfl

theorem phase12_cfgLean :
    phase12 cfgLean backup1 0 Pixel.default zeros zeros
      = some (⟨⟨1, Real.pi, 1⟩, ⟨1, 0⟩, ⟨⟨0, 0, 1⟩, none⟩⟩, 1) := by
  rw [phase12, phase1_cfgLean]
  rfl

theorem finish_eval_1 :
    (⟨1, Real.pi, 1⟩ : ReservoirBuilder).finish_with_history 1
      = ⟨1, Real.pi⟩ := by
  rw [ReservoirBuilder.finish_with_history]
  dsimp only
  rw [if_pos (by norm_num)]
  norm_num

/-- Claim C6 (amended): only in LeanAndMean mode, when after the reuse
phases the finally-selected sample has positive target value and fails the
visibility check from the current point, the pipeline resets the selected
light info to the default (zero color, no stored distance) instead of
calling `invalidate()`: the output color becomes zero, but the stored
reservoir is still finished from the untouched builder and can keep a
nonzero contribution weight. -/
theorem final_visibility_lean_semantics :
    ∀ (cfg : Config) (backup : ℕ → Reservoir × SampleInfo) (cell_index : ℕ)
      (cur : Pixel) (alphas u : ℕ → ℝ) (iv : Bool) (sd : SelState × ℕ),
      cfg.restir.convergence = Convergence.LeanAndMean iv →
      phase12 cfg backup cell_index cur alphas u = some sd →
      0 < (afterSpatial cfg backup cell_index (surfacePos cell_index) u
          sd.1 sd.2).1.selected_linfo.target_value →
      ¬ cfg.world.check_visibility (surfacePos cell_index)
          (afterSpatial cfg backup cell_index (surfacePos cell_index) u
            sd.1 sd.2).1.selected_dir →
      (updatePixel cfg backup cell_index cur alphas u).map (fun p => p.color)
          = some Vec3.zero ∧
      (updatePixel cfg backup cell_index cur alphas u).map
          (fun p => p.selected_sample.distance) = some none ∧
      (updatePixel cfg backup cell_index cur alphas u).map
          (fun p => p.reservoir)
        = some ((afterSpatial cfg backup cell_index (surfacePos cell_index) u
              sd.1 sd.2).1.builder.finish_with_history
            (unbiasedHistoryCode cfg backup cell_index (surfacePos cell_index)
              u sd.1 sd.2)) := by
  intro cfg backup cell_index cur alphas u iv sd hconv hph htv hvis
  have hfc : leanFinalCheck cfg (surfacePos cell_index)
      (afterSpatial cfg backup cell_index (surfacePos cell_index) u
        sd.1 sd.2).1
      = ⟨(afterSpatial cfg backup cell_index (surfacePos cell_index) u
            sd.1 sd.2).1.builder,
          (afterSpatial cfg backup cell_index (surfacePos cell_index) u
            sd.1 sd.2).1.selected_dir, LightInfo.default⟩ := by
    rw [leanFinalCheck, hconv]
    dsimp only
    rw [if_pos ⟨htv, hvis⟩]
  refine ⟨?_, ?_, ?_⟩
  · rw [updatePixel, hph, Option.map_some', Option.map_some']
    dsimp only
    rw [hfc]
    simp [LightInfo.default, Vec3_scale_zero]
  · rw [updatePixel, hph, Option.map_some', Option.map_some']
    dsimp only
    rw [hfc]
    rfl
  · rw [updatePixel, hph, Option.map_some', Option.map_some']

theorem final_visibility_lean_semantics_witness :
    cfgLean.restir.convergence = Convergence.LeanAndMean false ∧
    phase12 cfgLean backup1 0 Pixel.default zeros zeros
      = some (⟨⟨1, Real.pi, 1⟩, ⟨1, 0⟩, ⟨⟨0, 0, 1⟩, none⟩⟩, 1) ∧
    (updatePixel cfgLean backup1 0 Pixel.default zeros zeros).map
        (fun p => p.color) = some Vec3.zero :=
  ⟨rfl, phase12_cfgLean,
    (final_visibility_lean_semantics cfgLean backup1 0 Pixel.default zeros
      zeros false (⟨⟨1, Real.pi, 1⟩, ⟨1, 0⟩, ⟨⟨0, 0, 1⟩, none⟩⟩, 1) rfl
      phase12_cfgLean
      (by
        show (0 : ℝ) < LightInfo.target_value ⟨⟨0, 0, 1⟩, none⟩
        rw [sky_target_value]
        norm_num)
      (by
        show ¬ world1.check_visibility (surfacePos 0) ⟨1, 0⟩
        rw [surfacePos_zero]
        exact vis_eval)).1⟩

/-- Claim C6 counterexample: in the concrete LeanAndMean scene the selected
sample's direction fails the final visibility check, yet the stored
reservoir's contribution weight is `π`, not 0 — the pipeline never calls
`invalidate()`. -/
theorem final_visibility_counterexample :
    ¬ world1.check_visibility (surfacePos 0) ⟨1, 0⟩ ∧
    (updatePixel cfgLean backup1 0 Pixel.default zeros zeros).map
        (fun p => p.selected_sample.dir) = some ⟨1, 0⟩ ∧
    (updatePixel cfgLean backup1 0 Pixel.default zeros zeros).map
        (fun p => p.reservoir.contribution_weight) = some Real.pi ∧
    Real.pi ≠ 0 := by
  have hupd : updatePixel cfgLean backup1 0 Pixel.default zeros zeros
      = some ⟨⟨1, Real.pi⟩, ⟨⟨1, 0⟩, none⟩, Vec3.zero, Vec3.zero, 0⟩ := by
    rw [updatePixel, phase12_cfgLean, Option.map_some']
    dsimp only
    have hfc : leanFinalCheck cfgLean (surfacePos 0)
        ⟨⟨1, Real.pi, 1⟩, ⟨1, 0⟩, ⟨⟨0, 0, 1⟩, none⟩⟩
        = ⟨⟨1, Real.pi, 1⟩, ⟨1, 0⟩, LightInfo.default⟩ := by
      rw [leanFinalCheck,
        show cfgLean.restir.convergence = Convergence.LeanAndMean false from
          rfl]
      dsimp only
      rw [if_pos ⟨by rw [sky_target_value]; norm_num,
        by rw [surfacePos_zero]; exact vis_eval⟩]
    rw [show afterSpatial cfgLean backup1 0 (surfacePos 0) zeros
        ⟨⟨1, Real.pi, 1⟩, ⟨1, 0⟩, ⟨⟨0, 0, 1⟩, none⟩⟩ 1
        = (⟨⟨1, Real.pi, 1⟩, ⟨1, 0⟩, ⟨⟨0, 0, 1⟩, none⟩⟩, -1, 1) from rfl]
    rw [show unbiasedHistoryCode cfgLean backup1 0 (surfacePos 0) zeros
        ⟨⟨1, Real.pi, 1⟩, ⟨1, 0⟩, ⟨⟨0, 0, 1⟩, none⟩⟩ 1 = 1 from rfl]
    dsimp only
    rw [hfc, finish_eval_1]
    dsimp only
    rw [show LightInfo.default.color = Vec3.zero from rfl, Vec3_scale_zero]
    rw [show LightInfo.default.distance = (none : Option ℝ) from rfl]
    congr 1
    rw [show Pixel.default.color_accumulated = Vec3.zero from rfl,
      show Pixel.default.variance_accumulated = (0 : ℝ) from rfl]
    have hca : Vec3.scale (1 - cfgLean.accumulation) Vec3.zero
        + Vec3.scale cfgLean.accumulation Vec3.zero = Vec3.zero := by
      rw [Vec3_scale_zero, Vec3_scale_zero]
      show (⟨0 + 0, 0 + 0, 0 + 0⟩ : Vec3) = Vec3.zero
      rw [Vec3.zero]
      norm_num
    have hva : (0 : ℝ) * (1 - cfgLean.accumulation)
        + cfgLean.accumulation * (Vec3.zero - Vec3.zero).length_squared
        = 0 := by
      rw [show (Vec3.zero - Vec3.zero : Vec3) = ⟨0 - 0, 0 - 0, 0 - 0⟩ from rfl,
        Vec3.length_squared]
      norm_num
    rw [hca, hva]
  refine ⟨by rw [surfacePos_zero]; exact vis_eval, ?_, ?_, Real.pi_ne_zero⟩
  · rw [hupd, Option.map_some']
  · rw [hupd, Option.map_some']

theorem unbiased_history_reciprocity_witness :
    cfgPrec.restir.convergence = Convergence.Precise true ∧
    (updatePixel cfgPrec backup1 0 Pixel.default zeros zeros).map
        (fun p => p.reservoir)
      = (phase12 cfgPrec backup1 0 Pixel.default zeros zeros).map
          (fun sd =>
            (afterSpatial cfgPrec backup1 0 (surfacePos 0) zeros
                sd.1 sd.2).1.builder.finish_with_history
              (unbiasedHistorySpec cfgPrec backup1 0 (surfacePos 0) zeros
                sd.1 sd.2)) :=
  ⟨rfl, (unbiased_history_reciprocity cfgPrec backup1 0 Pixel.default zeros
    zeros rfl).2⟩

/-- Claim C9 counterexample: with two streamed candidates and an initial
history bound of 5, the builder entering the reuse phases has history 2 —
it was clamped but never collapsed (a collapse would have reset history
to 1). -/
theorem candidate_phase_counterexample :
    (phase1 cfgLean2 (surfacePos 0) zeros zeros).map
        (fun sd => sd.1.builder.history) = some 2 ∧ (2 : ℕ) ≠ 1 := by
  constructor
  · rw [phase1, candLoop_cfgLean2]
    rfl
  · decide

/-- Claim C9 (amended): the spec-modelled `collapse` averages `weight_sum`
by the current history and resets history to 1 and requires positive
history; but the pipeline's candidate-generation phase only clamps the
builder's history to the initial-history bound and performs no collapse:
the builder entering the reuse phases has history
`min (streamed history) max_initial_history`, not 1. -/
theorem candidate_phase_clamp_no_collapse :
    (∀ b : ReservoirBuilder, 0 < b.history →
      b.collapse = some ⟨1, b.weight_sum / (b.history : ℝ),
        b.selected_target_pdf⟩) ∧
    (∀ (cfg : Config) (pos : Vec2) (alphas u : ℕ → ℝ),
      0 < cfg.restir.max_initial_history →
      (phase1 cfg pos alphas u).map (fun sd => sd.1.builder.history)
        = some (min (candLoop cfg pos alphas u).1.builder.history
            cfg.restir.max_initial_history)) := by
  constructor
  · intro b hb
    rw [ReservoirBuilder.collapse, if_neg (by omega)]
  · intro cfg pos alphas u hmi
    have hbuilder : ∀ st : SelState,
        (afterLeanCheck cfg pos st).builder = st.builder := by
      intro st
      rw [afterLeanCheck]
      rcases hc : cfg.restir.convergence with ub | iv
      · rfl
      · rcases iv with _ | _
        · rfl
        · dsimp only
          split <;> rfl
    rw [phase1]
    rw [hbuilder]
    rw [ReservoirBuilder.clamp_history, if_neg (by omega)]
    by_cases hlt : cfg.restir.max_initial_history
        < (candLoop cfg pos alphas u).1.builder.history
    · rw [if_pos hlt, Option.map_some']
      simp [Nat.min_eq_right hlt.le]
    · rw [if_neg hlt, Option.map_some']
      simp [Nat.min_eq_left (Nat.le_of_not_lt hlt)]

theorem candidate_phase_clamp_no_collapse_witness :
    0 < (⟨3, 6, 1⟩ : ReservoirBuilder).history ∧
    (⟨3, 6, 1⟩ : ReservoirBuilder).collapse
      = some ⟨1, (6 : ℝ) / (((3 : ℕ) : ℝ)), 1⟩ ∧
    0 < cfgLean2.restir.max_initial_history ∧
    (phase1 cfgLean2 (surfacePos 0) zeros zeros).map
        (fun sd => sd.1.builder.history)
      = some (min (candLoop cfgLean2 (surfacePos 0) zeros zeros).1.builder.history
          cfgLean2.restir.max_initial_history) :=
  ⟨by decide, candidate_phase_clamp_no_collapse.1 ⟨3, 6, 1⟩ (by decide),
    by decide,
    candidate_phase_clamp_no_collapse.2 cfgLean2 (surfacePos 0) zeros zeros
      (by decide)⟩

theorem frame_snapshot_order_independence_witness :
    ([0, 1] : List ℕ).Nodup ∧ ([0, 1] : List ℕ).Perm [1, 0] ∧
    frameUpdate cfgLean (fun _ => Pixel.default) (fun _ => (zeros, zeros))
        [0, 1]
      = frameUpdate cfgLean (fun _ => Pixel.default) (fun _ => (zeros, zeros))
          [1, 0] :=
  ⟨by decide, by decide,
    (frame_snapshot_order_independence cfgLean (fun _ => Pixel.default)
      (fun _ => (zeros, zeros)) [0, 1] [1, 0] (by decide) (by decide)).1⟩

end Restir

end RsVoir
